import Mathlib

set_option autoImplicit false

/-!
A shallow embedding of the run-storage subsystem of the sanitiser-dashboard
service (`source/run_storage.py`) and of the file-browsing path guard of
`app.py`, together with proofs about the specified behaviour.

The relevant filesystem state is modelled explicitly: a run registry is an
association list from run id (directory name) to the contents of that run's
directory, and every file that the Python code reads back through
`json.loads` is modelled as either a parsed JSON value or as unparsable
text.  Each Lean definition mirrors one Python function and is named after
it; time (`datetime.now`) is passed in as an explicit argument.
-/

namespace SanDash

/-- JSON values, as produced and consumed by `json.dumps` / `json.loads`.
Numbers are modelled as integers; no claim inspects numeric fields. -/
inductive Json where
  | null
  | bool (b : Bool)
  | num (n : Int)
  | str (s : String)
  | arr (elems : List Json)
  | obj (fields : List (String × Json))

/-- Content of a whole-file JSON document on disk: either text that parses
to a JSON value, or text that `json.loads` rejects (`JSONDecodeError`). -/
inductive FileData where
  | json (j : Json)
  | corrupt

/-- One line of a `.jsonl` stream file: blank, a line parsing to a JSON
record, or non-blank text that `json.loads` rejects. -/
inductive JsonlLine where
  | blank
  | record (j : Json)
  | garbage

/-- The metadata dictionary held in a run's `meta.json`, with the keys
written by `create_run` / `update_run`.  `summary = none` models JSON
`null`; `status_message = none` models the key being absent. -/
structure RunMeta where
  run_id : String
  target : String
  mode : String
  status : String
  created : String
  updated : String
  description : Option String
  summary : Option Json
  status_message : Option String

/-- Content of a run's `meta.json` file: a parsed metadata dictionary or
unparsable text. -/
inductive MetaFile where
  | wf (m : RunMeta)
  | corrupt

/-- The on-disk directory of one run.  `meta = none` models a missing
`meta.json`, `timing = none` a missing `timing.json`.  The two streams are
lists of lines; a missing stream file and an empty one are observationally
identical to every `RunStorage` operation (`_count_lines` and `_read_jsonl`
both treat a missing file as empty), so both are modelled by `[]`.
`reports` records whether the `reports/` subdirectory exists. -/
structure RunDir where
  meta : Option MetaFile
  events : List JsonlLine
  requests : List JsonlLine
  timing : Option FileData
  reports : Bool

/-- The `runs/` directory underneath the storage root: an association list
from run id (directory name) to directory contents.  A run directory
exists iff its key is present; real directory listings never repeat a
name, which theorems assume as a `Nodup` hypothesis where it matters. -/
abbrev Storage := List (String × RunDir)

/-- The Python exceptions the storage layer can raise: `FileNotFoundError`
(NotFound), the `ValueError` raised by the delete containment check
(PathViolation), `json.JSONDecodeError` (parse failure), and the
`AttributeError` from calling `.append` on a non-list value read out of a
non-array `timing.json`. -/
inductive Err where
  | notFound
  | pathViolation
  | parseError
  | typeError
deriving DecidableEq, Repr

/-- `RunStorage._count_lines`: the number of non-blank lines of a stream
file (a missing file counts as zero lines). -/
def countLines (lines : List JsonlLine) : Nat :=
  (lines.filter fun l => match l with | JsonlLine.blank => false | _ => true).length

/-- `RunStorage._append_jsonl`: compute the sequence number as the current
non-blank line count plus one, then append one line holding `data`. -/
def appendJsonl (lines : List JsonlLine) (data : Json) : List JsonlLine × Nat :=
  let sequence := countLines lines + 1
  (lines ++ [JsonlLine.record data], sequence)

/-- `RunStorage._read_jsonl`: parse every non-blank line in order; a
non-blank line that fails to parse raises `json.JSONDecodeError`. -/
def readJsonl : List JsonlLine → Except Err (List Json)
  | [] => .ok []
  | JsonlLine.blank :: rest => readJsonl rest
  | JsonlLine.garbage :: _ => .error .parseError
  | JsonlLine.record j :: rest =>
    match readJsonl rest with
    | .error e => .error e
    | .ok js => .ok (j :: js)

/-- `(self._run_dir run_id).exists()`. -/
def dirExists (s : Storage) (run_id : String) : Bool :=
  (s.lookup run_id).isSome

/-- Replace the contents of the run directory named `run_id`, modelling a
file write inside that directory.  Directories are never created here. -/
def setRun (s : Storage) (run_id : String) (d : RunDir) : Storage :=
  s.map fun p => if p.1 = run_id then (p.1, d) else p

/-- `RunStorage._read_meta`: `None` when `meta.json` is absent (in
particular when the whole run directory is absent); raises
`JSONDecodeError` when the file exists but does not parse. -/
def readMeta (s : Storage) (run_id : String) : Except Err (Option RunMeta) :=
  match s.lookup run_id with
  | none => .ok none
  | some d =>
    match d.meta with
    | none => .ok none
    | some (MetaFile.wf m) => .ok (some m)
    | some MetaFile.corrupt => .error .parseError

/-- `RunStorage._write_meta` (only ever called with the run directory
already present). -/
def writeMeta (s : Storage) (run_id : String) (m : RunMeta) : Storage :=
  s.map fun p =>
    if p.1 = run_id then (p.1, { p.2 with meta := some (MetaFile.wf m) }) else p

/-- A dumped `PipelineEvent` / `RequestLog` as `model_dump()` yields it:
the `timestamp` entry (`none` models `null`) plus the remaining dumped
fields, which the storage layer never inspects. -/
structure StreamRecord where
  timestamp : Option String
  rest : List (String × Json)

/-- The dict actually appended to the stream: `timestamp` is auto-filled
with the current time when the dumped value is falsy (`null` or the empty
string), mirroring `if not data.get("timestamp")`. -/
def StreamRecord.withTimestamp (r : StreamRecord) (now : String) : Json :=
  let ts :=
    match r.timestamp with
    | none => now
    | some "" => now
    | some t => t
  Json.obj (("timestamp", Json.str ts) :: r.rest)

/-- `RunStorage.push_event`: `FileNotFoundError` when the run directory is
absent; otherwise append to `events.jsonl` and return the sequence. -/
def pushEvent (s : Storage) (run_id : String) (event : StreamRecord) (now : String) :
    Except Err (Storage × Nat) :=
  match s.lookup run_id with
  | none => .error .notFound
  | some d =>
    let appended := appendJsonl d.events (event.withTimestamp now)
    .ok (setRun s run_id { d with events := appended.1 }, appended.2)

/-- `RunStorage.get_events`: `FileNotFoundError` when the run directory is
absent; otherwise read `events.jsonl`. -/
def getEvents (s : Storage) (run_id : String) : Except Err (List Json) :=
  match s.lookup run_id with
  | none => .error .notFound
  | some d => readJsonl d.events

/-- `RunStorage.push_request`: same discipline as `push_event`, against
`requests.jsonl`. -/
def pushRequest (s : Storage) (run_id : String) (log : StreamRecord) (now : String) :
    Except Err (Storage × Nat) :=
  match s.lookup run_id with
  | none => .error .notFound
  | some d =>
    let appended := appendJsonl d.requests (log.withTimestamp now)
    .ok (setRun s run_id { d with requests := appended.1 }, appended.2)

/-- `RunStorage.get_requests`. -/
def getRequests (s : Storage) (run_id : String) : Except Err (List Json) :=
  match s.lookup run_id with
  | none => .error .notFound
  | some d => readJsonl d.requests

/-- `RunStorage.push_timing`: `FileNotFoundError` when the run directory
is absent; an existing `timing.json` that fails to parse is treated as the
empty array (tolerant start); the dumped `entries` are appended and the
whole array is rewritten, returning the new total count.  A parsable
non-array value raises `AttributeError` on `.append`. -/
def pushTiming (s : Storage) (run_id : String) (entries : List Json) :
    Except Err (Storage × Nat) :=
  match s.lookup run_id with
  | none => .error .notFound
  | some d =>
    match
      (match d.timing with
       | none => Except.ok []
       | some FileData.corrupt => Except.ok []
       | some (FileData.json (Json.arr xs)) => Except.ok xs
       | some (FileData.json _) => Except.error Err.typeError : Except Err (List Json)) with
    | .error e => .error e
    | .ok existing =>
      let combined := existing ++ entries
      .ok (setRun s run_id { d with timing := some (FileData.json (Json.arr combined)) },
        combined.length)

/-- `RunStorage.get_timing`: `FileNotFoundError` when the run directory is
absent; the empty array when `timing.json` is absent; otherwise whatever
`json.loads` yields — an unparsable file raises `JSONDecodeError` here,
unlike on the `push_timing` path. -/
def getTiming (s : Storage) (run_id : String) : Except Err Json :=
  match s.lookup run_id with
  | none => .error .notFound
  | some d =>
    match d.timing with
    | none => .ok (Json.arr [])
    | some (FileData.json j) => .ok j
    | some FileData.corrupt => .error .parseError

/-- `RunDetail` — the response model of `get_run` / `update_run`. -/
structure RunDetail where
  run_id : String
  target : String
  mode : String
  status : String
  created : String
  updated : Option String
  description : Option String
  summary : Option Json
  event_count : Nat
  request_count : Nat
  timing_count : Nat

/-- `RunSummary` — the per-run element of the `list_runs` response. -/
structure RunSummary where
  run_id : String
  target : String
  mode : String
  status : String
  created : String
  updated : Option String
  description : Option String
  event_count : Nat
  request_count : Nat

/-- The `timing_count` computation of `RunStorage._to_detail`: 0 when
`timing.json` is absent or unparsable (the exception is swallowed), the
array length for an array, 1 for any other parsed value. -/
def timingCount (timing : Option FileData) : Nat :=
  match timing with
  | none => 0
  | some FileData.corrupt => 0
  | some (FileData.json (Json.arr xs)) => xs.length
  | some (FileData.json _) => 1

/-- The run directory contents used for derived counts when the directory
itself is missing: every count comes out zero, matching `path.exists()`
checks in `_count_lines` and `_to_detail`. -/
def emptyRunDir : RunDir :=
  { meta := none, events := [], requests := [], timing := none, reports := false }

/-- `RunStorage._to_detail`. -/
def toDetail (run_id : String) (d : RunDir) (m : RunMeta) : RunDetail :=
  { run_id := run_id
    target := m.target
    mode := m.mode
    status := m.status
    created := m.created
    updated := some m.updated
    description := m.description
    summary := m.summary
    event_count := countLines d.events
    request_count := countLines d.requests
    timing_count := timingCount d.timing }

/-- `RunStorage._to_summary`. -/
def toSummary (run_id : String) (d : RunDir) (m : RunMeta) : RunSummary :=
  { run_id := run_id
    target := m.target
    mode := m.mode
    status := m.status
    created := m.created
    updated := some m.updated
    description := m.description
    event_count := countLines d.events
    request_count := countLines d.requests }

/-- `RunStorage.get_run`: `FileNotFoundError` when the metadata file is
absent; otherwise metadata merged with derived counts. -/
def getRun (s : Storage) (run_id : String) : Except Err RunDetail :=
  match readMeta s run_id with
  | .error e => .error e
  | .ok none => .error .notFound
  | .ok (some m) => .ok (toDetail run_id ((s.lookup run_id).getD emptyRunDir) m)

/-- `RunStorage.update_run`: read-modify-write of the metadata.  `status`
and `updated` are always set; `status_message` only when `message` is
truthy (not `None`, not empty); `summary` is replaced wholesale only when
the given dict is truthy (not `None`, not the empty dict). -/
def updateRun (s : Storage) (run_id : String) (status : String)
    (message : Option String) (summary : Option (List (String × Json)))
    (now : String) : Except Err (Storage × RunDetail) :=
  match readMeta s run_id with
  | .error e => .error e
  | .ok none => .error .notFound
  | .ok (some m) =>
    let m1 := { m with status := status, updated := now }
    let m2 :=
      match message with
      | some msg => if msg = "" then m1 else { m1 with status_message := some msg }
      | none => m1
    let m3 :=
      match summary with
      | some [] => m2
      | some kvs => { m2 with summary := some (Json.obj kvs) }
      | none => m2
    let s2 := writeMeta s run_id m3
    .ok (s2, toDetail run_id ((s2.lookup run_id).getD emptyRunDir) m3)

/-- One decimal digit character (code point `48 + n` for `n < 10`). -/
def digitChar (n : Nat) : Char := Char.ofNat (48 + n)

/-- Two-digit zero-padded decimal rendering (`%m`, `%d`, `%H`, `%M`, `%S`). -/
def pad2 (n : Nat) : List Char := [digitChar (n / 10 % 10), digitChar (n % 10)]

/-- Four-digit decimal rendering of the year (`%Y` for the four-digit
years `datetime.now` produces at runtime). -/
def pad4 (n : Nat) : List Char :=
  [digitChar (n / 1000 % 10), digitChar (n / 100 % 10),
   digitChar (n / 10 % 10), digitChar (n % 10)]

/-- A wall-clock reading, already broken into the fields `strftime` uses. -/
structure Timestamp where
  year : Nat
  month : Nat
  day : Nat
  hour : Nat
  minute : Nat
  second : Nat

/-- `RunStorage._generate_run_id`: `now.strftime("%Y%m%d-%H%M%S")`. -/
def generateRunId (ts : Timestamp) : String :=
  String.mk (pad4 ts.year ++ pad2 ts.month ++ pad2 ts.day ++ ['-'] ++
    pad2 ts.hour ++ pad2 ts.minute ++ pad2 ts.second)

/-- Decimal digits of `n`, most significant first — `str(n)` for a natural
number. -/
def decDigits (n : Nat) : List Char :=
  if _h : n < 10 then [digitChar n]
  else
    have : n / 10 < n := Nat.div_lt_self (by omega) (by omega)
    decDigits (n / 10) ++ [digitChar (n % 10)]

/-- The collision candidate `f"{base}-{counter}"` tried by `create_run`. -/
def collisionId (base : String) (counter : Nat) : String :=
  base ++ "-" ++ String.mk (decDigits counter)

/-- The `while run_dir.exists()` collision loop of `create_run`: starting
from `counter`, try `f"{base}-{counter}"`, `f"{base}-{counter+1}"`, … until
a free name is found.  The Python loop is unbounded; the model carries
fuel, and `createRun` passes enough fuel that, by pigeonhole on the
finitely many existing directories, the loop always stops at a free name
before the fuel runs out (`freshRunId_not_exists` below). -/
def collisionLoop (s : Storage) (base : String) : Nat → Nat → String
  | _, 0 => base
  | counter, fuel+1 =>
    let cand := collisionId base counter
    if dirExists s cand then collisionLoop s base (counter+1) fuel else cand

/-- Run-id allocation in `create_run`: the bare timestamp id when its
directory does not exist, otherwise the collision loop from counter 1. -/
def freshRunId (s : Storage) (base : String) : String :=
  if dirExists s base then collisionLoop s base 1 (s.length + 1) else base

/-- `CreateRunRequest` (`source/models.py`). -/
structure CreateRunRequest where
  target : String
  mode : String
  description : Option String

/-- `CreateRunResponse` (`source/models.py`). -/
structure CreateRunResponse where
  run_id : String
  target : String
  mode : String
  status : String
  created : String
  message : String

/-- `RunStorage.create_run`: allocate a fresh run id, create the run
directory and its `reports/` subdirectory, write the initial metadata
(`status="created"`, `created=updated=now`, `summary=null`), and return
the creation response. -/
def createRun (s : Storage) (req : CreateRunRequest) (ts : Timestamp) (now : String) :
    Storage × CreateRunResponse :=
  let run_id := freshRunId s (generateRunId ts)
  let meta : RunMeta :=
    { run_id := run_id, target := req.target, mode := req.mode, status := "created",
      created := now, updated := now, description := req.description,
      summary := none, status_message := none }
  let d : RunDir :=
    { meta := some (MetaFile.wf meta), events := [], requests := [],
      timing := none, reports := true }
  (s ++ [(run_id, d)],
   { run_id := run_id, target := req.target, mode := req.mode, status := "created",
     created := now, message := "Run " ++ run_id ++ " created" })

/-- Lexicographic code-point comparison of character lists — the ordering
Python uses when sorting directory names. -/
def charsLe : List Char → List Char → Bool
  | [], _ => true
  | _ :: _, [] => false
  | a :: as, b :: bs =>
    if a.toNat < b.toNat then true
    else if b.toNat < a.toNat then false
    else charsLe as bs

/-- `a` sorts at or after `b` in name order (the order of
`sorted(..., reverse=True)`). -/
def nameGe (a b : String) : Prop := charsLe b.data a.data = true

instance : DecidableRel nameGe := fun a b => by unfold nameGe; infer_instance

/-- `sorted(self.runs_path.iterdir(), reverse=True)`: the directory names
in reverse name order. -/
def sortedNamesDesc (s : Storage) : List String :=
  List.insertionSort nameGe (s.map Prod.fst)

/-- The body of the `list_runs` loop over the sorted directory names:
missing metadata (`_read_meta` returning `None`) skips the entry, while
unparsable metadata propagates `JSONDecodeError` out of the loop. -/
def listRunsAux (s : Storage) : List String → Except Err (List RunSummary)
  | [] => .ok []
  | k :: ks =>
    match s.lookup k with
    | none => listRunsAux s ks
    | some d =>
      match d.meta with
      | none => listRunsAux s ks
      | some MetaFile.corrupt => .error .parseError
      | some (MetaFile.wf m) =>
        match listRunsAux s ks with
        | .error e => .error e
        | .ok rest => .ok (toSummary k d m :: rest)

/-- `RunStorage.list_runs`.  (The `not run_dir.is_dir()` guard is not
modelled: the registry model only holds directories.) -/
def listRuns (s : Storage) : Except Err (List RunSummary) :=
  listRunsAux s (sortedNamesDesc s)

/-- The per-name summary extraction that `list_runs` performs when no
metadata file is corrupt (used to characterize the listing). -/
def summaryFor (s : Storage) (k : String) : Option RunSummary :=
  match s.lookup k with
  | none => none
  | some d =>
    match d.meta with
    | some (MetaFile.wf m) => some (toSummary k d m)
    | _ => none

/-- A decimal digit character, `0` through `9`. -/
def isDigitCh (c : Char) : Bool := 48 ≤ c.toNat && c.toNat ≤ 57

/-- The run-id shape `YYYYMMDD-HHMMSS`, optionally followed by a numeric
collision suffix `-n`. -/
def matchesRunIdPattern (run_id : String) : Bool :=
  match run_id.data with
  | d1 :: d2 :: d3 :: d4 :: d5 :: d6 :: d7 :: d8 :: sep1 ::
      t1 :: t2 :: t3 :: t4 :: t5 :: t6 :: rest =>
    [d1, d2, d3, d4, d5, d6, d7, d8, t1, t2, t3, t4, t5, t6].all isDigitCh &&
    sep1 == '-' &&
    (match rest with
     | [] => true
     | sep2 :: ds => sep2 == '-' && !ds.isEmpty && ds.all isDigitCh)
  | _ => false

/-- The numeric value of a decimal digit string (used to show that the
decimal rendering of the collision counter is injective). -/
def decValue (l : List Char) : Nat :=
  l.foldl (fun a c => a * 10 + (c.toNat - 48)) 0

/-- `RunStorage.delete_run`.  Path resolution (`Path.resolve`, which
follows symlinks) is modelled by the ambient function `resolveRun`, giving
the canonical absolute path — as a segment list — of `runs/{run_id}`, and
by `rootResolved`, the canonical absolute path of the `runs/` root;
`relative_to` succeeds exactly when the root path is a segment-prefix of
the resolved path.  On success `shutil.rmtree` removes the subtree. -/
def deleteRun (resolveRun : String → List String) (rootResolved : List String)
    (s : Storage) (run_id : String) : Except Err Storage :=
  match s.lookup run_id with
  | none => .error .notFound
  | some _ =>
    if rootResolved.isPrefixOf (resolveRun run_id) then
      .ok (s.filter fun p => p.1 != run_id)
    else .error .pathViolation

/-- An entry of the directory listing produced by `_list_dir`. -/
structure FileEntry where
  name : String
  path : String
  type : String
  size : Option Nat
  modified : String

/-- A response of `GET /api/files/{path}`: an error response built by
`_error_response(status, error, detail)`, file content, or a directory
listing. -/
inductive ApiFileResponse where
  | errorResp (status : Nat) (error : String) (detail : String)
  | fileContent (path : String) (content : String) (size : Nat)
  | dirListing (path : String) (entries : List FileEntry) (count : Nat)

/-- Scan for two consecutive dots: the substring check `".." in path`. -/
def hasDotDot : List Char → Bool
  | a :: b :: rest => (a == '.' && b == '.') || hasDotDot (b :: rest)
  | _ => false

/-- `".." in path` on the textual form of the caller-supplied path. -/
def containsDotDot (path : String) : Bool := hasDotDot path.data

/-- Split a character list on `/` — the textual segments of a path. -/
def segs : List Char → List (List Char)
  | [] => [[]]
  | c :: rest =>
    if c = '/' then [] :: segs rest
    else
      match segs rest with
      | s :: ss => (c :: s) :: ss
      | [] => [[c]]

/-- The textual form of the path contains a parent-directory segment. -/
def hasParentSegment (path : String) : Bool :=
  (segs path.data).contains ['.', '.']

/-- The data-volume filesystem as `get_data_file` sees it.  `resolve p` is
the canonical absolute form — as a segment list — of `DATA_PATH / p`
(following symlinks and collapsing `..`, hence an arbitrary function of
`p`); `rootResolved` is `DATA_PATH.resolve()`.  `readUtf8` returns `none`
when the bytes do not decode as UTF-8; `listDir` stands for the
`_list_dir` collaborator, taking the resolved directory and the
caller-relative path. -/
structure DataVolume where
  resolve : String → List String
  rootResolved : List String
  pathExists : List String → Bool
  isDirAt : List String → Bool
  readUtf8 : List String → Option String
  listDir : List String → String → List FileEntry

/-- `get_data_file` (`GET /api/files/{path}`): the textual `".."` guard,
then the resolve-and-contain guard, then 404 / directory listing / file
read with the binary-file condition. -/
def getDataFile (v : DataVolume) (path : String) : ApiFileResponse :=
  if containsDotDot path then
    .errorResp 403 "forbidden" "Path traversal not allowed"
  else
    let target := v.resolve path
    if v.rootResolved.isPrefixOf target then
      if v.pathExists target then
        if v.isDirAt target then
          let entries := v.listDir target path
          .dirListing (if path = "" then "/" else path) entries entries.length
        else
          match v.readUtf8 target with
          | some content => .fileContent path content content.length
          | none => .errorResp 400 "binary_file" ("Cannot read binary file: " ++ path)
      else
        .errorResp 404 "not_found" ("Not found: " ++ path)
    else
      .errorResp 403 "forbidden" "Path outside data volume"

/-- Fold `push_event` over a single-writer sequence of appends (each with
its own wall-clock reading), collecting the returned sequence numbers. -/
def pushEventSeqs : Storage → String → List (StreamRecord × String) →
    Except Err (Storage × List Nat)
  | s, _, [] => .ok (s, [])
  | s, run_id, (e, now) :: es =>
    match pushEvent s run_id e now with
    | .error err => .error err
    | .ok (s2, seq) =>
      match pushEventSeqs s2 run_id es with
      | .error err => .error err
      | .ok (s3, seqs) => .ok (s3, seq :: seqs)

/-- Fold `push_request` over a single-writer sequence of appends,
collecting the returned sequence numbers. -/
def pushRequestSeqs : Storage → String → List (StreamRecord × String) →
    Except Err (Storage × List Nat)
  | s, _, [] => .ok (s, [])
  | s, run_id, (e, now) :: es =>
    match pushRequest s run_id e now with
    | .error err => .error err
    | .ok (s2, seq) =>
      match pushRequestSeqs s2 run_id es with
      | .error err => .error err
      | .ok (s3, seqs) => .ok (s3, seq :: seqs)

/-- Fixture: a run id used by concrete witnesses. -/
def runA : String := "20240101-000000"

/-- Fixture: well-formed metadata whose summary is `{"a": 1}`. -/
def metaA : RunMeta :=
  { run_id := runA, target := "docs/x", mode := "analyse", status := "created",
    created := "t0", updated := "t0", description := none,
    summary := some (Json.obj [("a", Json.num 1)]), status_message := none }

/-- Fixture: a healthy freshly-created run directory. -/
def dirA : RunDir :=
  { meta := some (MetaFile.wf metaA), events := [], requests := [],
    timing := none, reports := true }

/-- Fixture: a registry holding the one healthy run. -/
def storA : Storage := [(runA, dirA)]

/-- Fixture: a run directory whose `meta.json` is missing. -/
def dirNoMeta : RunDir :=
  { meta := none, events := [], requests := [], timing := none, reports := true }

/-- Fixture: a registry holding only the metadata-less run. -/
def storNoMeta : Storage := [(runA, dirNoMeta)]

/-- Fixture: a run directory whose `timing.json` exists but is unparsable. -/
def dirBadTiming : RunDir :=
  { meta := some (MetaFile.wf metaA), events := [], requests := [],
    timing := some FileData.corrupt, reports := true }

/-- Fixture: a registry holding only the run with unparsable timing. -/
def storBadTiming : Storage := [(runA, dirBadTiming)]

/-- Fixture: a run directory whose `meta.json` exists but is unparsable. -/
def dirBadMeta : RunDir :=
  { meta := some MetaFile.corrupt, events := [], requests := [],
    timing := none, reports := true }

/-- Fixture: a registry holding only the run with unparsable metadata. -/
def storBadMeta : Storage := [(runA, dirBadMeta)]

/-- Fixture: a dumped event carrying no timestamp. -/
def recA : StreamRecord := { timestamp := none, rest := [] }

/-- Fixture: a data volume whose resolver escapes the root — as a symlink
pointing outside the data volume would make `Path.resolve` do. -/
def volEscaping : DataVolume :=
  { resolve := fun _ => ["etc", "passwd"], rootResolved := ["app", "data"],
    pathExists := fun _ => true, isDirAt := fun _ => false,
    readUtf8 := fun _ => some "x", listDir := fun _ _ => [] }

/-- Fixture: a resolver that keeps every run directory under the root. -/
def resolveInside : String → List String := fun rid => ["app", "data", "runs", rid]

/-- Fixture: a resolver (e.g. for a symlinked run directory) that lands
outside the registry root. -/
def resolveOutside : String → List String := fun _ => ["elsewhere"]

/-- Fixture: the resolved registry root used with the two resolvers. -/
def rootA : List String := ["app", "data", "runs"]

/-- Unfolding lemma: `List.lookup` at a matching head entry. -/
theorem lookup_cons_self (a : String) (b : RunDir) (t : Storage) :
    List.lookup a ((a, b) :: t) = some b := by
  simp [List.lookup]

/-- Unfolding lemma: `List.lookup` past a non-matching head entry. -/
theorem lookup_cons_ne (k a : String) (b : RunDir) (t : Storage)
    (h : (k == a) = false) : List.lookup k ((a, b) :: t) = List.lookup k t := by
  simp [List.lookup, h]

/-- Unfolding lemma: `setRun` on a cons cell. -/
theorem setRun_cons (a : String) (b : RunDir) (t : Storage) (k : String) (d2 : RunDir) :
    setRun ((a, b) :: t) k d2 = (if a = k then (a, d2) else (a, b)) :: setRun t k d2 := rfl

/-- Unfolding lemma: `writeMeta` on a cons cell. -/
theorem writeMeta_cons (a : String) (b : RunDir) (t : Storage) (k : String) (m : RunMeta) :
    writeMeta ((a, b) :: t) k m =
      (if a = k then (a, { b with meta := some (MetaFile.wf m) }) else (a, b)) ::
        writeMeta t k m := rfl

/-- Looking a key up after `setRun` on that key yields the new contents. -/
theorem lookup_setRun_self (s : Storage) (k : String) (d d2 : RunDir)
    (h : s.lookup k = some d) : (setRun s k d2).lookup k = some d2 := by
  induction s with
  | nil => simp [List.lookup] at h
  | cons p t ih =>
    obtain ⟨a, b⟩ := p
    by_cases hak : a = k
    · subst hak
      rw [setRun_cons, if_pos rfl, lookup_cons_self]
    · have hbeq : (k == a) = false := by simp [Ne.symm hak]
      rw [lookup_cons_ne _ _ _ _ hbeq] at h
      rw [setRun_cons, if_neg hak, lookup_cons_ne _ _ _ _ hbeq]
      exact ih h

/-- Looking a key up after `writeMeta` on that key yields the directory
with the new metadata file. -/
theorem lookup_writeMeta_self (s : Storage) (k : String) (d : RunDir) (m : RunMeta)
    (h : s.lookup k = some d) :
    (writeMeta s k m).lookup k = some { d with meta := some (MetaFile.wf m) } := by
  induction s with
  | nil => simp [List.lookup] at h
  | cons p t ih =>
    obtain ⟨a, b⟩ := p
    by_cases hak : a = k
    · subst hak
      rw [lookup_cons_self] at h
      simp only [Option.some.injEq] at h
      subst h
      rw [writeMeta_cons, if_pos rfl, lookup_cons_self]
    · have hbeq : (k == a) = false := by simp [Ne.symm hak]
      rw [lookup_cons_ne _ _ _ _ hbeq] at h
      rw [writeMeta_cons, if_neg hak, lookup_cons_ne _ _ _ _ hbeq]
      exact ih h

/-- After deleting every entry named `k`, looking `k` up fails. -/
theorem lookup_filter_ne (s : Storage) (k : String) :
    (s.filter fun p => p.1 != k).lookup k = none := by
  induction s with
  | nil => simp [List.lookup]
  | cons p t ih =>
    obtain ⟨a, b⟩ := p
    by_cases hak : a = k
    · subst hak
      simpa [List.filter, bne_self_eq_false] using ih
    · have hbne : (a != k) = true := by simp [bne, hak]
      have hbeq : (k == a) = false := by simp [Ne.symm hak]
      simp only [List.filter, hbne]
      rw [lookup_cons_ne _ _ _ _ hbeq]
      exact ih

/-- A lookup succeeds exactly when the key names an entry. -/
theorem lookup_isSome_iff_mem (s : Storage) (k : String) :
    (s.lookup k).isSome = true ↔ k ∈ s.map Prod.fst := by
  induction s with
  | nil => simp [List.lookup]
  | cons p t ih =>
    obtain ⟨a, b⟩ := p
    by_cases hak : a = k
    · subst hak
      simp [lookup_cons_self]
    · have hbeq : (k == a) = false := by simp [Ne.symm hak]
      rw [lookup_cons_ne _ _ _ _ hbeq]
      simp only [List.map_cons, List.mem_cons]
      rw [ih]
      have hka : ¬ k = a := Ne.symm hak
      tauto

/-- Appending a fresh entry makes its key resolvable to it. -/
theorem lookup_append_fresh (s : Storage) (k : String) (d : RunDir)
    (h : s.lookup k = none) : (s ++ [(k, d)]).lookup k = some d := by
  induction s with
  | nil => simp [List.lookup]
  | cons p t ih =>
    obtain ⟨a, b⟩ := p
    by_cases hak : a = k
    · subst hak
      rw [lookup_cons_self] at h
      cases h
    · have hbeq : (k == a) = false := by simp [Ne.symm hak]
      rw [lookup_cons_ne _ _ _ _ hbeq] at h
      rw [List.cons_append, lookup_cons_ne _ _ _ _ hbeq]
      exact ih h

/-- Appending one record line bumps the non-blank line count by one. -/
theorem countLines_append_record (lines : List JsonlLine) (j : Json) :
    countLines (lines ++ [JsonlLine.record j]) = countLines lines + 1 := by
  simp [countLines, List.filter_append]

/-- A stream with no non-blank lines reads back as the empty list. -/
theorem readJsonl_of_countLines_zero (lines : List JsonlLine)
    (h : countLines lines = 0) : readJsonl lines = .ok [] := by
  induction lines with
  | nil => rfl
  | cons l t ih =>
    cases l with
    | blank =>
      simp only [countLines, List.filter] at h
      exact ih h
    | record j => simp [countLines, List.filter] at h
    | garbage => simp [countLines, List.filter] at h

/-- A stream without unparsable lines reads back successfully. -/
theorem readJsonl_isOk_of_no_garbage (lines : List JsonlLine)
    (h : ∀ l ∈ lines, l ≠ JsonlLine.garbage) : (readJsonl lines).isOk = true := by
  induction lines with
  | nil => rfl
  | cons l t ih =>
    have ht : ∀ x ∈ t, x ≠ JsonlLine.garbage := fun x hx => h x (List.mem_cons_of_mem l hx)
    cases l with
    | blank => simpa [readJsonl] using ih ht
    | record j =>
      have := ih ht
      simp only [readJsonl]
      cases hr : readJsonl t with
      | error e => rw [hr] at this; simp [Except.isOk, Except.toBool] at this
      | ok js => simp [Except.isOk, Except.toBool]
    | garbage => exact absurd rfl (h _ (List.mem_cons_self _ _))

/-- A run id that no entry carries makes `get_run` fail NotFound. -/
theorem getRun_notFound_of_lookup_none (s : Storage) (k : String)
    (h : s.lookup k = none) : getRun s k = .error .notFound := by
  simp [getRun, readMeta, h]

/-- Claim C6: reading the event stream (and likewise the request stream)
fails NotFound when the run's directory does not exist, returns the empty
list when the run exists but its stream holds zero records (zero non-blank
lines), and the two outcomes are distinguishable. -/
theorem read_streams_notFound_vs_empty (s : Storage) (run_id : String) :
    (s.lookup run_id = none →
      getEvents s run_id = .error .notFound ∧
      getRequests s run_id = .error .notFound) ∧
    (∀ d, s.lookup run_id = some d →
      (countLines d.events = 0 → getEvents s run_id = .ok []) ∧
      (countLines d.requests = 0 → getRequests s run_id = .ok [])) ∧
    (Except.error Err.notFound ≠ (Except.ok [] : Except Err (List Json))) := by
  refine ⟨fun h => ?_, fun d hd => ?_, by simp⟩
  · exact ⟨by simp [getEvents, h], by simp [getRequests, h]⟩
  · constructor
    · intro hz
      simp [getEvents, hd, readJsonl_of_countLines_zero _ hz]
    · intro hz
      simp [getRequests, hd, readJsonl_of_countLines_zero _ hz]

/-- Witness for C6: on the concrete registry, reading the fresh run's
events yields the empty list while reading an absent run fails NotFound. -/
theorem read_streams_notFound_vs_empty_witness :
    getEvents storA runA = .ok [] ∧ getEvents storA "absent" = .error .notFound := by
  constructor
  · exact ((read_streams_notFound_vs_empty storA runA).2.1 dirA rfl).1 rfl
  · exact ((read_streams_notFound_vs_empty storA "absent").1 rfl).1

/-- Claim C9: for a run whose directory exists but whose metadata file is
missing, `push_event` and `get_events` succeed (the stream holding no
unparsable lines), while `get_run` and `update_run` on the same run id
fail NotFound. -/
theorem meta_missing_streams_ok_run_ops_notFound (s : Storage) (run_id : String)
    (d : RunDir) (e : StreamRecord) (now status : String) (message : Option String)
    (summary : Option (List (String × Json)))
    (h : s.lookup run_id = some d) (hm : d.meta = none)
    (hg : ∀ l ∈ d.events, l ≠ JsonlLine.garbage) :
    (pushEvent s run_id e now).isOk = true ∧
    (getEvents s run_id).isOk = true ∧
    getRun s run_id = .error .notFound ∧
    updateRun s run_id status message summary now = .error .notFound := by
  refine ⟨?_, ?_, ?_, ?_⟩
  · simp [pushEvent, h, Except.isOk, Except.toBool]
  · simpa [getEvents, h] using readJsonl_isOk_of_no_garbage d.events hg
  · simp [getRun, readMeta, h, hm]
  · simp [updateRun, readMeta, h, hm]

/-- Witness for C9 on a concrete registry holding one metadata-less run. -/
theorem meta_missing_witness :
    (pushEvent storNoMeta runA recA "t1").isOk = true ∧
    getRun storNoMeta runA = .error .notFound := by
  have h := meta_missing_streams_ok_run_ops_notFound storNoMeta runA dirNoMeta recA
    "t1" "running" none none rfl rfl (fun l hl => by simp [dirNoMeta] at hl)
  exact ⟨h.1, h.2.2.1⟩

/-- Claim C10: with an existing but unparsable `timing.json`, `push_timing`
tolerates the content as the empty array and succeeds with the new entry
count, while `get_timing` on the same run propagates the parse failure. -/
theorem corrupt_timing_push_tolerant_get_fails (s : Storage) (run_id : String)
    (d : RunDir) (entries : List Json)
    (h : s.lookup run_id = some d) (ht : d.timing = some FileData.corrupt) :
    pushTiming s run_id entries =
      .ok (setRun s run_id
        { d with timing := some (FileData.json (Json.arr entries)) }, entries.length) ∧
    getTiming s run_id = .error .parseError := by
  constructor
  · simp [pushTiming, h, ht]
  · simp [getTiming, h, ht]

/-- Witness for C10 on a concrete registry with unparsable timing. -/
theorem corrupt_timing_witness :
    pushTiming storBadTiming runA [Json.null] =
      .ok (setRun storBadTiming runA
        { dirBadTiming with timing := some (FileData.json (Json.arr [Json.null])) }, 1) ∧
    getTiming storBadTiming runA = .error .parseError :=
  corrupt_timing_push_tolerant_get_fails storBadTiming runA dirBadTiming [Json.null] rfl rfl

/-- Claim C7: timing push appends the dumped entries after the existing
stored array in order and returns the resulting total count; missing or
unparsable existing content on the write path acts as the empty array; in
particular `push [A]` then `push [B]` makes `get_timing` yield `[A, B]`. -/
theorem push_timing_appends_in_order (s : Storage) (run_id : String) (d : RunDir)
    (h : s.lookup run_id = some d) :
    (∀ xs entries, d.timing = some (FileData.json (Json.arr xs)) →
      ∃ s2, pushTiming s run_id entries = .ok (s2, (xs ++ entries).length) ∧
        getTiming s2 run_id = .ok (Json.arr (xs ++ entries))) ∧
    (∀ entries, d.timing = none ∨ d.timing = some FileData.corrupt →
      ∃ s2, pushTiming s run_id entries = .ok (s2, entries.length) ∧
        getTiming s2 run_id = .ok (Json.arr entries)) ∧
    (∀ A B, d.timing = none →
      ∃ s1 s2, pushTiming s run_id [A] = .ok (s1, 1) ∧
        pushTiming s1 run_id [B] = .ok (s2, 2) ∧
        getTiming s2 run_id = .ok (Json.arr [A, B])) := by
  refine ⟨fun xs entries ht => ?_, fun entries ht => ?_, fun A B ht => ?_⟩
  · refine ⟨setRun s run_id { d with timing := some (FileData.json (Json.arr (xs ++ entries))) },
      by simp [pushTiming, h, ht], ?_⟩
    have hl := lookup_setRun_self s run_id d
      { d with timing := some (FileData.json (Json.arr (xs ++ entries))) } h
    simp [getTiming, hl]
  · refine ⟨setRun s run_id { d with timing := some (FileData.json (Json.arr entries)) },
      ?_, ?_⟩
    · rcases ht with ht | ht <;> simp [pushTiming, h, ht]
    · have hl := lookup_setRun_self s run_id d
        { d with timing := some (FileData.json (Json.arr entries)) } h
      simp [getTiming, hl]
  · refine ⟨setRun s run_id { d with timing := some (FileData.json (Json.arr [A])) },
      setRun (setRun s run_id { d with timing := some (FileData.json (Json.arr [A])) })
        run_id { d with timing := some (FileData.json (Json.arr [A, B])) }, ?_, ?_, ?_⟩
    · simp [pushTiming, h, ht]
    · have hl := lookup_setRun_self s run_id d
        { d with timing := some (FileData.json (Json.arr [A])) } h
      simp [pushTiming, hl]
    · have hl := lookup_setRun_self s run_id d
        { d with timing := some (FileData.json (Json.arr [A])) } h
      have hl2 := lookup_setRun_self _ run_id
        { d with timing := some (FileData.json (Json.arr [A])) }
        { d with timing := some (FileData.json (Json.arr [A, B])) } hl
      simp [getTiming, hl2]

/-- Witness for C7: two concrete single-entry pushes against the fresh run
accumulate in order. -/
theorem push_timing_witness :
    ∃ s1 s2, pushTiming storA runA [Json.num 1] = .ok (s1, 1) ∧
      pushTiming s1 runA [Json.num 2] = .ok (s2, 2) ∧
      getTiming s2 runA = .ok (Json.arr [Json.num 1, Json.num 2]) :=
  (push_timing_appends_in_order storA runA dirA rfl).2.2 (Json.num 1) (Json.num 2) rfl

/-- Claim C8: delete fails NotFound when the run is missing; when present
but resolving outside the registry's root it fails PathViolation (distinct
from NotFound); on success the subtree is removed and a subsequent get on
that run id fails NotFound. -/
theorem delete_run_containment (resolveRun : String → List String)
    (rootResolved : List String) (s : Storage) (run_id : String) :
    (s.lookup run_id = none →
      deleteRun resolveRun rootResolved s run_id = .error .notFound) ∧
    (∀ d, s.lookup run_id = some d →
      (rootResolved.isPrefixOf (resolveRun run_id) = false →
        deleteRun resolveRun rootResolved s run_id = .error .pathViolation ∧
        Err.pathViolation ≠ Err.notFound) ∧
      (rootResolved.isPrefixOf (resolveRun run_id) = true →
        deleteRun resolveRun rootResolved s run_id =
          .ok (s.filter fun p => p.1 != run_id) ∧
        (s.filter fun p => p.1 != run_id).lookup run_id = none ∧
        getRun (s.filter fun p => p.1 != run_id) run_id = .error .notFound)) := by
  refine ⟨fun h => by simp [deleteRun, h], fun d hd => ⟨fun hp => ?_, fun hp => ?_⟩⟩
  · exact ⟨by simp [deleteRun, hd, hp], by simp⟩
  · exact ⟨by simp [deleteRun, hd, hp], lookup_filter_ne s run_id,
      getRun_notFound_of_lookup_none _ _ (lookup_filter_ne s run_id)⟩

/-- Witness for C8: concrete deletes — contained resolution succeeds and
empties the registry, escaping resolution is rejected, missing run is
NotFound. -/
theorem delete_run_witness :
    deleteRun resolveInside rootA storA runA = .ok [] ∧
    deleteRun resolveOutside rootA storA runA = .error .pathViolation ∧
    deleteRun resolveInside rootA [] runA = .error .notFound := by
  refine ⟨?_, ?_, ?_⟩
  · exact (((delete_run_containment resolveInside rootA storA runA).2 dirA rfl).2 rfl).1
  · exact (((delete_run_containment resolveOutside rootA storA runA).2 dirA rfl).1 rfl).1
  · exact (delete_run_containment resolveInside rootA [] runA).1 rfl

/-- A dot-dot pair anywhere in the tail is found from the head as well. -/
theorem hasDotDot_cons (c : Char) (l : List Char) (h : hasDotDot l = true) :
    hasDotDot (c :: l) = true := by
  cases l with
  | nil => simp [hasDotDot] at h
  | cons b t => simp [hasDotDot, h]

/-- Unfolding lemma: `segs` on the empty list. -/
theorem segs_nil : segs [] = [[]] := rfl

/-- Unfolding lemma: `segs` at a separator. -/
theorem segs_cons_slash (rest : List Char) : segs ('/' :: rest) = [] :: segs rest := by
  simp [segs]

/-- Unfolding lemma: `segs` at a non-separator character. -/
theorem segs_cons_other (c : Char) (rest : List Char) (hc : ¬ c = '/') :
    segs (c :: rest) =
      match segs rest with
      | s :: ss => (c :: s) :: ss
      | [] => [[c]] := by
  simp [segs, hc]

/-- `segs` never returns the empty list of segments. -/
theorem segs_ne_nil (l : List Char) : segs l ≠ [] := by
  cases l with
  | nil => simp [segs_nil]
  | cons c rest =>
    by_cases h : c = '/'
    · subst h
      simp [segs_cons_slash]
    · rw [segs_cons_other c rest h]
      cases hs : segs rest with
      | nil => simp
      | cons s ss => simp

/-- The first segment is an initial piece of the character list. -/
theorem segs_head_decomp (l s : List Char) (ss : List (List Char))
    (h : segs l = s :: ss) : ∃ t, l = s ++ t := by
  induction l generalizing s ss with
  | nil =>
    rw [segs_nil] at h
    injection h with h1 h2
    exact ⟨[], by rw [← h1]; rfl⟩
  | cons c rest ih =>
    by_cases hc : c = '/'
    · subst hc
      rw [segs_cons_slash] at h
      injection h with h1 h2
      exact ⟨'/' :: rest, by rw [← h1]; rfl⟩
    · rw [segs_cons_other c rest hc] at h
      cases hs : segs rest with
      | nil => exact absurd hs (segs_ne_nil rest)
      | cons s0 ss0 =>
        rw [hs] at h
        injection h with h1 h2
        obtain ⟨t, ht⟩ := ih s0 ss0 hs
        exact ⟨t, by rw [← h1, ht]; rfl⟩

/-- A parent-directory segment forces two consecutive dots in the text. -/
theorem hasDotDot_of_parent_seg (l : List Char) (h : ['.', '.'] ∈ segs l) :
    hasDotDot l = true := by
  induction l with
  | nil =>
    rw [segs_nil] at h
    simp at h
  | cons c rest ih =>
    by_cases hc : c = '/'
    · subst hc
      rw [segs_cons_slash] at h
      simp only [List.mem_cons] at h
      rcases h with h | h
      · simp at h
      · exact hasDotDot_cons _ _ (ih h)
    · rw [segs_cons_other c rest hc] at h
      cases hs : segs rest with
      | nil => exact absurd hs (segs_ne_nil rest)
      | cons s0 ss0 =>
        rw [hs] at h
        simp only [List.mem_cons] at h
        rcases h with h | h
        · injection h with h1 h2
          obtain ⟨t, ht⟩ := segs_head_decomp rest s0 ss0 hs
          rw [← h2] at ht
          rw [← h1, ht]
          simp [hasDotDot]
        · have hmem : ['.', '.'] ∈ segs rest := by
            rw [hs]
            exact List.mem_cons_of_mem _ h
          exact hasDotDot_cons _ _ (ih hmem)

/-- The textual parent-segment condition implies the coded `".."` check. -/
theorem containsDotDot_of_hasParentSegment (path : String)
    (h : hasParentSegment path = true) : containsDotDot path = true := by
  apply hasDotDot_of_parent_seg
  simpa [hasParentSegment, List.contains_iff_exists_mem_beq] using h

/-- Claim C1: a browse path whose textual form contains a parent-directory
segment, or whose canonical resolved form is not a descendant of the
canonical data root, is rejected with a 403 error response, yielding
neither file content nor a directory listing. -/
theorem get_data_file_rejects_escapes (v : DataVolume) (path : String)
    (h : hasParentSegment path = true ∨
      v.rootResolved.isPrefixOf (v.resolve path) = false) :
    ∃ detail, getDataFile v path = .errorResp 403 "forbidden" detail := by
  rcases h with h | h
  · exact ⟨"Path traversal not allowed",
      by simp [getDataFile, containsDotDot_of_hasParentSegment path h]⟩
  · cases hdd : containsDotDot path with
    | true => exact ⟨"Path traversal not allowed", by simp [getDataFile, hdd]⟩
    | false => exact ⟨"Path outside data volume", by simp [getDataFile, hdd, h]⟩

/-- Witness for C1: `"../x"` is rejected on the concrete escaping volume. -/
theorem get_data_file_rejects_witness :
    hasParentSegment "../x" = true ∧
    ∃ detail, getDataFile volEscaping "../x" = .errorResp 403 "forbidden" detail :=
  ⟨rfl, get_data_file_rejects_escapes volEscaping "../x" (Or.inl rfl)⟩

/-- Counterexample to C2 as stated: updating with the empty summary object
`{}` leaves the previous summary `{"a": 1}` in place rather than replacing
it, because `update_run` guards the write with a truthiness test. -/
theorem update_empty_summary_not_replaced :
    (updateRun storA runA "completed" none (some []) "t1").map
        (fun r => (getRun r.1 runA).map (fun det => det.summary)) =
      .ok (.ok (some (Json.obj [("a", Json.num 1)]))) ∧
    Json.obj [("a", Json.num 1)] ≠ Json.obj [] := by
  constructor
  · rfl
  · simp

/-- Amended C2: for every existing run and every non-empty summary object
`S`, `update` with `summary = S` makes a subsequent `get` return a summary
equal to `S` exactly — a wholesale replacement, not a merge.  (The empty
dict, being falsy, is skipped by `update_run`, as is `None`.) -/
theorem update_nonempty_summary_replaces (s : Storage) (run_id status : String)
    (message : Option String) (kvs : List (String × Json)) (now : String)
    (d : RunDir) (m : RunMeta)
    (hl : s.lookup run_id = some d) (hm : d.meta = some (MetaFile.wf m))
    (hk : kvs ≠ []) :
    (updateRun s run_id status message (some kvs) now).map
        (fun r => r.2.summary) = .ok (some (Json.obj kvs)) ∧
    (updateRun s run_id status message (some kvs) now).map
        (fun r => (getRun r.1 run_id).map (fun det => det.summary)) =
      .ok (.ok (some (Json.obj kvs))) := by
  obtain ⟨kv, kvt, rfl⟩ : ∃ kv kvt, kvs = kv :: kvt := by
    cases kvs with
    | nil => exact absurd rfl hk
    | cons kv kvt => exact ⟨kv, kvt, rfl⟩
  cases message with
  | none =>
    have hw := lookup_writeMeta_self s run_id d
      { m with status := status, updated := now, summary := some (Json.obj (kv :: kvt)) } hl
    constructor
    · simp [updateRun, readMeta, hl, hm, toDetail, Except.map]
    · simp [updateRun, readMeta, hl, hm, getRun, hw, toDetail, Except.map]
  | some msg =>
    by_cases hq : msg = ""
    · subst hq
      have hw := lookup_writeMeta_self s run_id d
        { m with status := status, updated := now, summary := some (Json.obj (kv :: kvt)) } hl
      constructor
      · simp [updateRun, readMeta, hl, hm, toDetail, Except.map]
      · simp [updateRun, readMeta, hl, hm, getRun, hw, toDetail, Except.map]
    · have hw := lookup_writeMeta_self s run_id d
        { m with
            status := status, updated := now, status_message := some msg,
            summary := some (Json.obj (kv :: kvt)) } hl
      constructor
      · simp [updateRun, readMeta, hl, hm, hq, toDetail, Except.map]
      · simp [updateRun, readMeta, hl, hm, hq, getRun, hw, toDetail, Except.map]

/-- Witness for the amended C2 at a concrete run and summary. -/
theorem update_nonempty_summary_witness :
    (updateRun storA runA "completed" none (some [("b", Json.num 2)]) "t1").map
        (fun r => r.2.summary) = .ok (some (Json.obj [("b", Json.num 2)])) ∧
    (updateRun storA runA "completed" none (some [("b", Json.num 2)]) "t1").map
        (fun r => (getRun r.1 runA).map (fun det => det.summary)) =
      .ok (.ok (some (Json.obj [("b", Json.num 2)]))) :=
  update_nonempty_summary_replaces storA runA "completed" none [("b", Json.num 2)] "t1"
    dirA metaA rfl rfl (by simp)

/-- One event append against an existing run: the returned sequence is the
current non-blank line count plus one, the event stream grows by one
record line, and nothing else in the directory changes. -/
theorem pushEvent_step (s : Storage) (run_id : String) (d : RunDir)
    (e : StreamRecord) (now : String) (h : s.lookup run_id = some d) :
    pushEvent s run_id e now =
      .ok (setRun s run_id
        { d with events := d.events ++ [JsonlLine.record (e.withTimestamp now)] },
        countLines d.events + 1) := by
  simp [pushEvent, h, appendJsonl]

/-- One request-log append against an existing run, mirrored. -/
theorem pushRequest_step (s : Storage) (run_id : String) (d : RunDir)
    (e : StreamRecord) (now : String) (h : s.lookup run_id = some d) :
    pushRequest s run_id e now =
      .ok (setRun s run_id
        { d with requests := d.requests ++ [JsonlLine.record (e.withTimestamp now)] },
        countLines d.requests + 1) := by
  simp [pushRequest, h, appendJsonl]

/-- Folding event appends over an existing run returns consecutive
sequence numbers starting after the current line count, grows the count
accordingly, and leaves the request stream untouched. -/
theorem pushEventSeqs_ok (run_id : String) (es : List (StreamRecord × String)) :
    ∀ (s : Storage) (d : RunDir), s.lookup run_id = some d →
      ∃ s2 d2, pushEventSeqs s run_id es =
          .ok (s2, List.range' (countLines d.events + 1) es.length) ∧
        s2.lookup run_id = some d2 ∧
        countLines d2.events = countLines d.events + es.length ∧
        d2.requests = d.requests := by
  induction es with
  | nil =>
    intro s d h
    exact ⟨s, d, by simp [pushEventSeqs], h, by simp, rfl⟩
  | cons p t ih =>
    intro s d h
    obtain ⟨e, now⟩ := p
    have hstep := pushEvent_step s run_id d e now h
    have hl := lookup_setRun_self s run_id d
      { d with events := d.events ++ [JsonlLine.record (e.withTimestamp now)] } h
    obtain ⟨s2, d2, hseq, hl2, hc2, hr2⟩ := ih _ _ hl
    refine ⟨s2, d2, ?_, hl2, ?_, hr2⟩
    · simp only [pushEventSeqs, hstep, hseq]
      rw [List.length_cons, List.range'_succ]
      simp [countLines_append_record]
    · simp only [countLines_append_record] at hc2
      simp only [hc2, List.length_cons]
      omega

/-- Folding request-log appends, mirrored: consecutive sequence numbers
and an untouched event stream. -/
theorem pushRequestSeqs_ok (run_id : String) (rs : List (StreamRecord × String)) :
    ∀ (s : Storage) (d : RunDir), s.lookup run_id = some d →
      ∃ s2 d2, pushRequestSeqs s run_id rs =
          .ok (s2, List.range' (countLines d.requests + 1) rs.length) ∧
        s2.lookup run_id = some d2 ∧
        countLines d2.requests = countLines d.requests + rs.length ∧
        d2.events = d.events := by
  induction rs with
  | nil =>
    intro s d h
    exact ⟨s, d, by simp [pushRequestSeqs], h, by simp, rfl⟩
  | cons p t ih =>
    intro s d h
    obtain ⟨e, now⟩ := p
    have hstep := pushRequest_step s run_id d e now h
    have hl := lookup_setRun_self s run_id d
      { d with requests := d.requests ++ [JsonlLine.record (e.withTimestamp now)] } h
    obtain ⟨s2, d2, hseq, hl2, hc2, hr2⟩ := ih _ _ hl
    refine ⟨s2, d2, ?_, hl2, ?_, hr2⟩
    · simp only [pushRequestSeqs, hstep, hseq]
      rw [List.length_cons, List.range'_succ]
      simp [countLines_append_record]
    · simp only [countLines_append_record] at hc2
      simp only [hc2, List.length_cons]
      omega

/-- Claim C4: starting from a run whose streams are empty, a single-writer
sequence of event appends returns the sequence numbers 1, 2, 3, … (the
n-th append returns n, computed as the count of existing non-blank lines
plus one), and the request-log stream is sequenced independently in the
same way, unaffected by the event appends. -/
theorem stream_sequences_one_to_n (s : Storage) (run_id : String) (d : RunDir)
    (es rs : List (StreamRecord × String))
    (h : s.lookup run_id = some d) (he : d.events = []) (hr : d.requests = []) :
    ∃ s2, pushEventSeqs s run_id es = .ok (s2, List.range' 1 es.length) ∧
      ∃ s3, pushRequestSeqs s2 run_id rs = .ok (s3, List.range' 1 rs.length) := by
  obtain ⟨s2, d2, hseq, hl2, _, hreq⟩ := pushEventSeqs_ok run_id es s d h
  have hce : countLines d.events = 0 := by rw [he]; rfl
  obtain ⟨s3, d3, hseq2, _, _, _⟩ := pushRequestSeqs_ok run_id rs s2 d2 hl2
  have hcr : countLines d2.requests = 0 := by rw [hreq, hr]; rfl
  rw [hce] at hseq
  rw [hcr] at hseq2
  exact ⟨s2, hseq, s3, hseq2⟩

/-- Witness for C4: two concrete event appends then one request append
against the fresh run return sequences 1, 2 and (independently) 1. -/
theorem stream_sequences_witness :
    ∃ s2, pushEventSeqs storA runA [(recA, "t1"), (recA, "t2")] = .ok (s2, [1, 2]) ∧
      ∃ s3, pushRequestSeqs s2 runA [(recA, "t3")] = .ok (s3, [1]) :=
  stream_sequences_one_to_n storA runA dirA [(recA, "t1"), (recA, "t2")]
    [(recA, "t3")] rfl rfl rfl

/-- Unfolding characterization of `charsLe` on two cons cells. -/
theorem charsLe_cons_iff (a b : Char) (as bs : List Char) :
    charsLe (a :: as) (b :: bs) = true ↔
      (a.toNat < b.toNat ∨ (a.toNat = b.toNat ∧ charsLe as bs = true)) := by
  by_cases h1 : a.toNat < b.toNat
  · simp [charsLe, h1]
  · by_cases h2 : b.toNat < a.toNat
    · simp only [charsLe, if_neg h1, if_pos h2]
      constructor
      · intro hf
        cases hf
      · rintro (h | ⟨he, _⟩) <;> omega
    · have he : a.toNat = b.toNat := by omega
      simp [charsLe, h1, h2, he]

/-- The code-point comparison is total. -/
theorem charsLe_total : ∀ x y : List Char, charsLe x y = true ∨ charsLe y x = true := by
  intro x
  induction x with
  | nil => intro y; left; rfl
  | cons a as ih =>
    intro y
    cases y with
    | nil => right; rfl
    | cons b bs =>
      rcases Nat.lt_trichotomy a.toNat b.toNat with h | h | h
      · left
        rw [charsLe_cons_iff]
        exact Or.inl h
      · rcases ih bs with hr | hr
        · left
          rw [charsLe_cons_iff]
          exact Or.inr ⟨h, hr⟩
        · right
          rw [charsLe_cons_iff]
          exact Or.inr ⟨h.symm, hr⟩
      · right
        rw [charsLe_cons_iff]
        exact Or.inl h

/-- The code-point comparison is transitive. -/
theorem charsLe_trans : ∀ x y z : List Char,
    charsLe x y = true → charsLe y z = true → charsLe x z = true := by
  intro x
  induction x with
  | nil => intro y z _ _; rfl
  | cons a as ih =>
    intro y z hxy hyz
    cases y with
    | nil => cases hxy
    | cons b bs =>
      cases z with
      | nil => cases hyz
      | cons c cs =>
        rw [charsLe_cons_iff] at hxy hyz ⊢
        rcases hxy with h1 | ⟨h1, hr1⟩
        · rcases hyz with h2 | ⟨h2, _⟩
          · exact Or.inl (h1.trans h2)
          · exact Or.inl (by omega)
        · rcases hyz with h2 | ⟨h2, hr2⟩
          · exact Or.inl (by omega)
          · exact Or.inr ⟨by omega, ih bs cs hr1 hr2⟩

/-- A successful lookup names an actual entry. -/
theorem mem_of_lookup_eq_some (s : Storage) (k : String) (d : RunDir)
    (h : s.lookup k = some d) : (k, d) ∈ s := by
  induction s with
  | nil => cases h
  | cons p t ih =>
    obtain ⟨a, b⟩ := p
    by_cases hak : a = k
    · subst hak
      rw [lookup_cons_self] at h
      simp only [Option.some.injEq] at h
      subst h
      exact List.mem_cons_self _ _
    · have hbeq : (k == a) = false := by simp [Ne.symm hak]
      rw [lookup_cons_ne _ _ _ _ hbeq] at h
      exact List.mem_cons_of_mem _ (ih h)

/-- With no duplicate directory names, membership determines the lookup. -/
theorem lookup_of_mem_nodup (s : Storage) (k : String) (d : RunDir)
    (hnd : (s.map Prod.fst).Nodup) (h : (k, d) ∈ s) : s.lookup k = some d := by
  induction s with
  | nil => cases h
  | cons p t ih =>
    obtain ⟨a, b⟩ := p
    simp only [List.map_cons, List.nodup_cons] at hnd
    rcases List.mem_cons.mp h with heq | hmem
    · have h1 : k = a := congrArg Prod.fst heq
      have h2 : d = b := congrArg Prod.snd heq
      subst h1
      subst h2
      rw [lookup_cons_self]
    · by_cases hak : a = k
      · subst hak
        exact absurd (List.mem_map_of_mem Prod.fst hmem) hnd.1
      · have hbeq : (k == a) = false := by simp [Ne.symm hak]
        rw [lookup_cons_ne _ _ _ _ hbeq]
        exact ih hnd.2 hmem

/-- When no run's metadata is corrupt, the listing loop succeeds and is
the summary extraction mapped over the visited names. -/
theorem listRunsAux_eq_filterMap (s : Storage)
    (hnc : ∀ p ∈ s, p.2.meta ≠ some MetaFile.corrupt) (ks : List String) :
    listRunsAux s ks = .ok (ks.filterMap (summaryFor s)) := by
  induction ks with
  | nil => rfl
  | cons k t ih =>
    cases hl : s.lookup k with
    | none => simp [listRunsAux, hl, List.filterMap_cons, summaryFor, ih]
    | some d =>
      cases hmf : d.meta with
      | none => simp [listRunsAux, hl, hmf, List.filterMap_cons, summaryFor, ih]
      | some mf =>
        cases mf with
        | corrupt => exact absurd hmf (hnc (k, d) (mem_of_lookup_eq_some s k d hl))
        | wf m => simp [listRunsAux, hl, hmf, List.filterMap_cons, summaryFor, ih]

/-- The run ids of the extracted summaries form a sublist of the visited
names (each extracted summary carries its own name). -/
theorem filterMap_summaryFor_ids_sublist (s : Storage) (ks : List String) :
    ((ks.filterMap (summaryFor s)).map RunSummary.run_id).Sublist ks := by
  induction ks with
  | nil => simp
  | cons k t ih =>
    cases hf : summaryFor s k with
    | none =>
      rw [List.filterMap_cons, hf]
      exact ih.cons k
    | some x =>
      have hid : x.run_id = k := by
        cases hl : s.lookup k with
        | none => simp [summaryFor, hl] at hf
        | some d =>
          cases hmf : d.meta with
          | none => simp [summaryFor, hl, hmf] at hf
          | some mf =>
            cases mf with
            | corrupt => simp [summaryFor, hl, hmf] at hf
            | wf m =>
              simp only [summaryFor, hl, hmf, Option.some.injEq] at hf
              rw [← hf]
              rfl
      rw [List.filterMap_cons, hf, List.map_cons, hid]
      exact ih.cons₂ k

/-- Counterexample to C3 as stated: a registry holding one run whose
metadata file exists but is unparsable makes `list_runs` raise the parse
error instead of silently skipping the entry. -/
theorem list_runs_raises_on_corrupt_meta :
    storBadMeta.lookup runA = some dirBadMeta ∧
    dirBadMeta.meta = some MetaFile.corrupt ∧
    listRuns storBadMeta = .error .parseError := ⟨rfl, rfl, rfl⟩

/-- Amended C3: runs whose metadata file is missing are silently skipped,
and when no run's metadata is unparsable the listing succeeds, contains
exactly the runs with valid metadata, and is in reverse name order; an
unparsable metadata file, however, makes `list_runs` raise (the
counterexample), rather than being skipped. -/
theorem list_runs_skips_missing_meta (s : Storage)
    (hnd : (s.map Prod.fst).Nodup)
    (hnc : ∀ p ∈ s, p.2.meta ≠ some MetaFile.corrupt) :
    ∃ L, listRuns s = .ok L ∧
      (∀ k d m, (k, d) ∈ s → d.meta = some (MetaFile.wf m) → toSummary k d m ∈ L) ∧
      (∀ x ∈ L, ∃ k d m, (k, d) ∈ s ∧ d.meta = some (MetaFile.wf m) ∧
        x = toSummary k d m) ∧
      List.Sorted nameGe (L.map RunSummary.run_id) := by
  haveI : IsTotal String nameGe :=
    ⟨fun a b => by
      unfold nameGe
      rcases charsLe_total b.data a.data with h | h
      · exact Or.inl h
      · exact Or.inr h⟩
  haveI : IsTrans String nameGe :=
    ⟨fun a b c hab hbc => charsLe_trans c.data b.data a.data hbc hab⟩
  refine ⟨(sortedNamesDesc s).filterMap (summaryFor s),
    listRunsAux_eq_filterMap s hnc (sortedNamesDesc s), ?_, ?_, ?_⟩
  · intro k d m hmem hwf
    have hl : s.lookup k = some d := lookup_of_mem_nodup s k d hnd hmem
    have hks : k ∈ sortedNamesDesc s := by
      unfold sortedNamesDesc
      rw [(List.perm_insertionSort nameGe (s.map Prod.fst)).mem_iff]
      exact List.mem_map_of_mem Prod.fst hmem
    exact List.mem_filterMap.mpr ⟨k, hks, by simp [summaryFor, hl, hwf]⟩
  · intro x hx
    obtain ⟨k, _, hf⟩ := List.mem_filterMap.mp hx
    cases hl : s.lookup k with
    | none => simp [summaryFor, hl] at hf
    | some d =>
      cases hmf : d.meta with
      | none => simp [summaryFor, hl, hmf] at hf
      | some mf =>
        cases mf with
        | corrupt => simp [summaryFor, hl, hmf] at hf
        | wf m =>
          simp only [summaryFor, hl, hmf, Option.some.injEq] at hf
          exact ⟨k, d, m, mem_of_lookup_eq_some s k d hl, hmf, hf.symm⟩
  · have hsorted : List.Sorted nameGe (sortedNamesDesc s) :=
      List.sorted_insertionSort nameGe (s.map Prod.fst)
    exact List.Pairwise.sublist (filterMap_summaryFor_ids_sublist s (sortedNamesDesc s))
      hsorted

/-- Witness for the amended C3 on a concrete two-run registry: one healthy
run and one whose metadata file is missing. -/
theorem list_runs_skips_missing_meta_witness :
    ∃ L, listRuns [("20240102-000000", dirA), (runA, dirNoMeta)] = .ok L ∧
      (∀ k d m, (k, d) ∈ ([("20240102-000000", dirA), (runA, dirNoMeta)] : Storage) →
        d.meta = some (MetaFile.wf m) → toSummary k d m ∈ L) ∧
      (∀ x ∈ L, ∃ k d m,
        (k, d) ∈ ([("20240102-000000", dirA), (runA, dirNoMeta)] : Storage) ∧
        d.meta = some (MetaFile.wf m) ∧ x = toSummary k d m) ∧
      List.Sorted nameGe (L.map RunSummary.run_id) :=
  list_runs_skips_missing_meta [("20240102-000000", dirA), (runA, dirNoMeta)]
    (by decide)
    (by
      rintro p hp
      rcases List.mem_cons.mp hp with hp | hp
      · cases hp
        simp [dirA]
      · rcases List.mem_cons.mp hp with hp | hp
        · cases hp
          simp [dirNoMeta]
        · cases hp)

/-- The code point of a digit character below ten. -/
theorem digitChar_toNat (n : Nat) (h : n < 10) : (digitChar n).toNat = 48 + n := by
  unfold digitChar
  interval_cases n <;> decide

/-- Digit characters below ten satisfy the digit test. -/
theorem isDigitCh_digitChar (n : Nat) (h : n < 10) : isDigitCh (digitChar n) = true := by
  unfold digitChar isDigitCh
  interval_cases n <;> decide

/-- The digit test holds for any value reduced modulo ten. -/
theorem isDigitCh_digitChar_mod (n : Nat) : isDigitCh (digitChar (n % 10)) = true :=
  isDigitCh_digitChar (n % 10) (Nat.mod_lt n (by omega))

/-- Decimal renderings are never empty. -/
theorem decDigits_ne_nil (n : Nat) : decDigits n ≠ [] := by
  induction n using decDigits.induct with
  | case1 x hx =>
    rw [decDigits, dif_pos hx]
    simp
  | case2 x hx hlt ih =>
    rw [decDigits, dif_neg hx]
    simp

/-- Decimal renderings consist of digit characters. -/
theorem decDigits_all_digits (n : Nat) : (decDigits n).all isDigitCh = true := by
  induction n using decDigits.induct with
  | case1 x hx =>
    rw [decDigits, dif_pos hx]
    simp [isDigitCh_digitChar x hx]
  | case2 x hx hlt ih =>
    rw [decDigits, dif_neg hx]
    simp [List.all_append, ih, isDigitCh_digitChar_mod]

/-- Appending one digit multiplies the value by ten and adds the digit. -/
theorem decValue_append_single (xs : List Char) (c : Char) :
    decValue (xs ++ [c]) = decValue xs * 10 + (c.toNat - 48) := by
  unfold decValue
  rw [List.foldl_append]
  rfl

/-- Decimal rendering round-trips through its numeric value. -/
theorem decValue_decDigits (n : Nat) : decValue (decDigits n) = n := by
  induction n using decDigits.induct with
  | case1 x hx =>
    rw [decDigits, dif_pos hx]
    have hc := digitChar_toNat x hx
    simp only [decValue, List.foldl, hc]
    omega
  | case2 x hx hlt ih =>
    rw [decDigits, dif_neg hx]
    rw [decValue_append_single, ih, digitChar_toNat (x % 10) (Nat.mod_lt x (by omega))]
    omega

/-- Decimal rendering is injective. -/
theorem decDigits_inj (a b : Nat) (h : decDigits a = decDigits b) : a = b := by
  have ha := decValue_decDigits a
  rw [h, decValue_decDigits b] at ha
  exact ha.symm

/-- String data distributes over append. -/
theorem string_data_append (a b : String) : (a ++ b).data = a.data ++ b.data := by
  cases a
  cases b
  rfl

/-- Unfolding lemma: the data of a built string. -/
theorem string_data_mk (l : List Char) : (String.mk l).data = l := rfl

/-- Unfolding lemma: the data of the dash literal. -/
theorem string_data_dash : ("-" : String).data = ['-'] := rfl

/-- Collision candidates with different counters are different names. -/
theorem collisionId_inj (base : String) : Function.Injective (collisionId base) := by
  intro i j h
  have hd := congrArg String.data h
  unfold collisionId at hd
  rw [string_data_append, string_data_append, string_data_mk, string_data_mk] at hd
  exact decDigits_inj i j (List.append_cancel_left hd)

/-- Pigeonhole: among the first `s.length + 1` collision counters, some
candidate name is free. -/
theorem exists_free_collision (s : Storage) (base : String) :
    ∃ j, 1 ≤ j ∧ j ≤ s.length + 1 ∧ dirExists s (collisionId base j) = false := by
  by_contra hcon
  push_neg at hcon
  have hall : ∀ j, 1 ≤ j → j ≤ s.length + 1 →
      dirExists s (collisionId base j) = true := by
    intro j h1 h2
    have hne := hcon j h1 h2
    cases hdx : dirExists s (collisionId base j)
    · exact absurd hdx hne
    · rfl
  have hsub : ∀ x ∈ (List.range' 1 (s.length + 1)).map (collisionId base),
      x ∈ s.map Prod.fst := by
    intro x hx
    obtain ⟨j, hj, rfl⟩ := List.mem_map.mp hx
    obtain ⟨hj1, hj2⟩ := List.mem_range'_1.mp hj
    exact (lookup_isSome_iff_mem s _).mp (hall j hj1 (by omega))
  have hnd : ((List.range' 1 (s.length + 1)).map (collisionId base)).Nodup :=
    List.Nodup.map (collisionId_inj base) (List.nodup_range' 1 (s.length + 1))
  have h1 : ((List.range' 1 (s.length + 1)).map (collisionId base)).length =
      s.length + 1 := by
    rw [List.length_map, List.length_range']
  have h2 := List.toFinset_card_of_nodup hnd
  have h3 : ((List.range' 1 (s.length + 1)).map (collisionId base)).toFinset ⊆
      (s.map Prod.fst).toFinset := by
    intro x hx
    exact List.mem_toFinset.mpr (hsub x (List.mem_toFinset.mp hx))
  have h4 := Finset.card_le_card h3
  have h5 := List.toFinset_card_le (s.map Prod.fst)
  have h6 : (s.map Prod.fst).length = s.length := List.length_map _ _
  omega

/-- When a free candidate exists within the fuel window, the collision
loop stops at a free candidate name. -/
theorem collisionLoop_free (s : Storage) (base : String) :
    ∀ (fuel counter : Nat),
      (∃ j, counter ≤ j ∧ j < counter + fuel ∧
        dirExists s (collisionId base j) = false) →
      dirExists s (collisionLoop s base counter fuel) = false ∧
      ∃ j, collisionLoop s base counter fuel = collisionId base j := by
  intro fuel
  induction fuel with
  | zero =>
    intro counter h
    obtain ⟨j, hj1, hj2, _⟩ := h
    omega
  | succ f ih =>
    intro counter h
    obtain ⟨j, hj1, hj2, hjf⟩ := h
    cases hd : dirExists s (collisionId base counter) with
    | true =>
      have hne : j ≠ counter := by
        intro he
        rw [he] at hjf
        rw [hjf] at hd
        cases hd
      obtain ⟨hf, j2, heq⟩ := ih (counter + 1) ⟨j, by omega, by omega, hjf⟩
      constructor
      · simpa [collisionLoop, hd] using hf
      · exact ⟨j2, by simpa [collisionLoop, hd] using heq⟩
    | false =>
      constructor
      · simp [collisionLoop, hd]
      · exact ⟨counter, by simp [collisionLoop, hd]⟩

/-- The allocated run id never names an existing directory, and is either
the bare timestamp id or a collision candidate over it. -/
theorem freshRunId_spec (s : Storage) (base : String) :
    dirExists s (freshRunId s base) = false ∧
    (freshRunId s base = base ∨ ∃ j, freshRunId s base = collisionId base j) := by
  unfold freshRunId
  cases hd : dirExists s base with
  | false =>
    refine ⟨?_, ?_⟩ <;> simp [hd]
  | true =>
    obtain ⟨j, h1, h2, hf⟩ := exists_free_collision s base
    have hc := collisionLoop_free s base (s.length + 1) 1 ⟨j, h1, by omega, hf⟩
    simpa [hd] using ⟨hc.1, Or.inr hc.2⟩

/-- The bare timestamp id matches the run-id pattern. -/
theorem matches_generateRunId (ts : Timestamp) :
    matchesRunIdPattern (generateRunId ts) = true := by
  simp [matchesRunIdPattern, generateRunId, pad4, pad2, isDigitCh_digitChar_mod]

/-- A collision candidate over the timestamp id matches the run-id pattern
(its suffix is a nonempty digit string). -/
theorem matches_collisionId (ts : Timestamp) (j : Nat) :
    matchesRunIdPattern (collisionId (generateRunId ts) j) = true := by
  have h1 := decDigits_ne_nil j
  have h2 := decDigits_all_digits j
  simp [matchesRunIdPattern, collisionId, generateRunId, string_data_append,
    string_data_mk, string_data_dash, pad4, pad2, isDigitCh_digitChar_mod, h1, h2]

/-- Claim C5: every successful `create_run` returns a run id matching the
timestamp pattern (with an optional numeric collision suffix), creates the
run directory and its `reports/` subdirectory, writes initial metadata
with status `"created"`, `created = updated = now` and a null summary, and
a subsequent get reports zero event, request and timing counts. -/
theorem create_run_initializes (s : Storage) (req : CreateRunRequest)
    (ts : Timestamp) (now : String) :
    matchesRunIdPattern (createRun s req ts now).2.run_id = true ∧
    (createRun s req ts now).1.lookup (createRun s req ts now).2.run_id =
      some { meta := some (MetaFile.wf
               { run_id := (createRun s req ts now).2.run_id, target := req.target,
                 mode := req.mode, status := "created", created := now, updated := now,
                 description := req.description, summary := none,
                 status_message := none }),
             events := [], requests := [], timing := none, reports := true } ∧
    (createRun s req ts now).2.status = "created" ∧
    (createRun s req ts now).2.created = now ∧
    getRun (createRun s req ts now).1 (createRun s req ts now).2.run_id =
      .ok { run_id := (createRun s req ts now).2.run_id, target := req.target,
            mode := req.mode, status := "created", created := now, updated := some now,
            description := req.description, summary := none,
            event_count := 0, request_count := 0, timing_count := 0 } := by
  obtain ⟨hfree, hshape⟩ := freshRunId_spec s (generateRunId ts)
  have hnone : s.lookup (freshRunId s (generateRunId ts)) = none := by
    apply Option.not_isSome_iff_eq_none.mp
    intro hcontra
    unfold dirExists at hfree
    rw [hcontra] at hfree
    cases hfree
  have hlook := lookup_append_fresh s (freshRunId s (generateRunId ts))
    { meta := some (MetaFile.wf
        { run_id := freshRunId s (generateRunId ts), target := req.target,
          mode := req.mode, status := "created", created := now, updated := now,
          description := req.description, summary := none, status_message := none }),
      events := [], requests := [], timing := none, reports := true } hnone
  refine ⟨?_, hlook, rfl, rfl, ?_⟩
  · rcases hshape with hb | ⟨j, hj⟩
    · have hid : (createRun s req ts now).2.run_id = generateRunId ts := hb
      rw [hid]
      exact matches_generateRunId ts
    · have hid : (createRun s req ts now).2.run_id =
        collisionId (generateRunId ts) j := hj
      rw [hid]
      exact matches_collisionId ts j
  · simp only [createRun]
    simp [getRun, readMeta, hlook, toDetail, countLines, timingCount]

end SanDash
